import Mathlib

/-!
Verification of the crane I/O and control core of the lab-scale gantry crane
repository (gantrylib).  Python sources are shallowly embedded:

* bytes are `Nat` values (0..255), byte buffers are `List Nat`;
* IEEE-754 float32 values are represented by their 32-bit little-endian bit
  patterns (a `Nat`); the bit-pattern of `0.0` is `0`.  The decoder only moves
  payload bytes around, so this representation is faithful for every claim
  considered here.  The zero offsets `angle_offset`/`wind_offset` keep their
  initial value `0.0` in all modelled states (`zeroWind`/`zeroAngle` are never
  invoked by the modelled operations) and `x - 0.0 = x` for float values, so
  the offset subtraction in `getStatus` is the identity and is not modelled;
* the real numbers handled by the executor and the axis calibration are
  modelled as rationals `ℚ`;
* stateful code is explicit state passing; wall-clock time is an oracle
  `Nat → ℚ` consumed one sample per `time.time()` call.
-/

namespace Gantry

/-! ## FrameDecoder: `SerialCraneIOUC.getStatus` (crane_io_uc.py)

The Python decoder is
```
matches = self.pattern.findall(self.buffer)   -- pattern = re.compile(b'\x01(.{12})')
if matches:
    last = matches[-1]
    floats = struct.unpack('<fff', last)
    self.buffer = self.buffer.split(last)[-1]
    ... return floats
else: return previous values
```
`re.findall` scans left to right for non-overlapping matches; without
`re.DOTALL` the byte class `.` matches every byte except `0x0A` (newline).
`bytes.split(sep)[-1]` is the remainder after the final non-overlapping
left-to-right occurrence of `sep`.
-/

/-- A candidate payload for `re`'s `.{12}` (no DOTALL): exactly 12 bytes,
none of which is the newline byte `0x0A`. -/
def payloadOk (p : List Nat) : Bool :=
  p.length = 12 && p.all (fun b => b ≠ 10)

/-- Left-to-right non-overlapping scan of `re.compile(b'\x01(.{12})').findall`,
fuel-indexed for structural recursion (`fuel ≥ buffer length` is always used). -/
def findallAux : Nat → List Nat → List (List Nat)
  | 0, _ => []
  | _ + 1, [] => []
  | fuel + 1, b :: rest =>
    if b = 1 && payloadOk (rest.take 12) then
      rest.take 12 :: findallAux fuel (rest.drop 12)
    else
      findallAux fuel rest

/-- Model of `re.compile(b'\x01(.{12})').findall(buffer)`: the captured 12-byte payloads
of all non-overlapping matches, scanning left to right. -/
def findall (buf : List Nat) : List (List Nat) :=
  findallAux buf.length buf

/-- What the spec claims the pattern means: one `0x01` start byte followed by
*any* 12 payload bytes (no newline exclusion).  Used only to compare the
spec's reading of the pattern with the code's actual regex semantics. -/
def specFindallAux : Nat → List Nat → List (List Nat)
  | 0, _ => []
  | _ + 1, [] => []
  | fuel + 1, b :: rest =>
    if b = 1 && (rest.take 12).length = 12 then
      rest.take 12 :: specFindallAux fuel (rest.drop 12)
    else
      specFindallAux fuel rest

/-- Matches of "start byte followed by any 12 bytes", per the spec's words. -/
def specFindall (buf : List Nat) : List (List Nat) :=
  specFindallAux buf.length buf

/-- First index at which `sep` occurs as a contiguous sublist of `buf`. -/
def findSub : List Nat → List Nat → Option Nat
  | [], sep => if sep.isEmpty then some 0 else none
  | b :: rest, sep =>
    if sep.isPrefixOf (b :: rest) then some 0
    else (findSub rest sep).map (· + 1)

/-- Remainder of `buf` after the final left-to-right non-overlapping occurrence
of `sep`, i.e. Python's `buf.split(sep)[-1]` for nonempty `sep` (fuel-indexed;
`fuel ≥ buf.length` suffices since every step removes at least one byte). -/
def splitLastAux : Nat → List Nat → List Nat → List Nat
  | 0, buf, _ => buf
  | fuel + 1, buf, sep =>
    match findSub buf sep with
    | none => buf
    | some i => splitLastAux fuel (buf.drop (i + sep.length)) sep

/-- Model of `buf.split(sep)[-1]` (Python bytes.split semantics, nonempty `sep`). -/
def splitLast (buf sep : List Nat) : List Nat :=
  splitLastAux buf.length buf sep

/-- Little-endian 32-bit assembly of the first four bytes: the bit pattern of
one `<f` float of `struct.unpack`. -/
def le32 : List Nat → Nat
  | a :: b :: c :: d :: _ => a + 256 * b + 65536 * c + 16777216 * d
  | _ => 0

/-- Model of `struct.unpack('<fff', p)`: the three float32 bit patterns of a 12-byte
payload. -/
def unpackFFF (p : List Nat) : Nat × Nat × Nat :=
  (le32 p, le32 (p.drop 4), le32 (p.drop 8))

/-- Mutable state of `SerialCraneIOUC`: the previously decoded values (float32
bit patterns) and the residual byte buffer. -/
structure UCState where
  angle : Nat
  omega : Nat
  windspeed : Nat
  buffer : List Nat
deriving DecidableEq, Repr

/-- State after `SerialCraneIOUC.__init__`: `angle = omega = windspeed = 0.0`
(bit pattern 0) and an empty buffer. -/
def initUCState : UCState :=
  { angle := 0, omega := 0, windspeed := 0, buffer := [] }

/-- Model of `SerialCraneIOUC.getStatus`.  `incoming` is what `conn.read(in_waiting)`
returns on this call; it is appended to the buffer, then the buffer is scanned
for all pattern matches.  If any exist, the last one is decoded, the buffer is
cut down with `buffer.split(last)[-1]`, and the new values are stored and
returned; otherwise the previous values are returned and the buffer is kept. -/
def getStatus (st : UCState) (incoming : List Nat) : UCState × (Nat × Nat × Nat) :=
  let buf := st.buffer ++ incoming
  let ms := findall buf
  match ms.getLast? with
  | some last =>
    let v := unpackFFF last
    ({ angle := v.1, omega := v.2.1, windspeed := v.2.2,
       buffer := splitLast buf last }, v)
  | none =>
    ({ st with buffer := buf }, (st.angle, st.omega, st.windspeed))

/-! ## ContinuousStateLogger: `CraneStateLogger` (gantry_state_logger.py)

The sampler worker (`_logging_loop`) and the writer worker (`_writer_loop`)
share a bounded FIFO `measurement_queue` (front of the list = oldest).  All
numeric sample content is irrelevant to the queue logic; one measurement is a
timestamp (`Nat`, `datetime.now()` as an abstract key) plus the converted
state tuple. -/

/-- One queued sample: `(ts, x_cart/1000, v_cart/1000, x_hoist/1000,
v_hoist/1000, theta, omega, wspeed)` as built in `_logging_loop`. -/
structure Measurement where
  ts : Nat
  xCart : ℚ
  vCart : ℚ
  xHoist : ℚ
  vHoist : ℚ
  theta : ℚ
  omega : ℚ
  wspeed : ℚ
deriving DecidableEq, Repr

/-- A fixed concrete sample used by the concrete-input theorems below. -/
def sampleM : Measurement :=
  { ts := 0, xCart := 0, vCart := 0, xHoist := 0, vHoist := 0,
    theta := 0, omega := 0, wspeed := 0 }

/-- The sampler worker's enqueue step (`_logging_loop` lines 115-118):
`if not queue.full(): queue.put(m) else: warn and drop`.  Returns the new
queue and whether the sample was dropped (the warning case).  The code checks
`full()` first and only then calls `put`, so the put never blocks (the
sampler is the queue's only producer); correspondingly this is a total
function. -/
def samplerEnqueue (cap : Nat) (q : List Measurement) (m : Measurement) :
    List Measurement × Bool :=
  if q.length < cap then (q ++ [m], false) else (q, true)

/-- The writer worker's loop-local accumulation state: the `measurements`
batch list and the `seen_timestamps` set (modelled as the list of timestamps
added so far; only membership is ever queried). -/
structure WriterState where
  measurements : List Measurement
  seen : List Nat
deriving DecidableEq, Repr

/-- The writer worker's initial accumulation state (empty batch, no seen
timestamps). -/
def initWriterState : WriterState := { measurements := [], seen := [] }

/-- The queue-draining phase of one writer tick (`_writer_loop` lines
150-159): pop every queued sample; append it to the batch unless its
timestamp was already seen (duplicate-timestamp suppression). -/
def collectQueue : WriterState → List Measurement → WriterState
  | st, [] => st
  | st, m :: rest =>
    if st.seen.contains m.ts then collectQueue st rest
    else collectQueue { measurements := st.measurements ++ [m],
                        seen := st.seen ++ [m.ts] } rest

/-- One writer tick (`_writer_loop` lines 150-170).  `queue` is the content of
the shared queue at this tick, `storeOk` is whether the `store_state` call
succeeds.  Returns the writer state carried to the next tick and the argument
of the `store_state` call if one was attempted.  Crucially, lines 167-168
(`measurements = []`, `seen_timestamps.clear()`) run only on success: on a
persistence error the batch stays in `measurements` for the next tick. -/
def writerTick (st : WriterState) (queue : List Measurement) (storeOk : Bool) :
    WriterState × Option (List Measurement) :=
  let st1 := collectQueue st queue
  if st1.measurements.isEmpty then (st1, none)
  else if storeOk then (initWriterState, some st1.measurements)
  else (st1, some st1.measurements)

/-- The two cooperative flags of `CraneStateLogger` (`running` and `paused`
threading events; `is_set` reads the Bool). -/
structure LoggerFlags where
  running : Bool
  paused : Bool
deriving DecidableEq, Repr

/-- Queue plus flags: the part of the logger state that `pause`/`flush_buffer`
touch. -/
structure LoggerState where
  queue : List Measurement
  flags : LoggerFlags
deriving DecidableEq, Repr

/-- Model of `CraneStateLogger.pause` (lines 180-182): `self.paused.set()` and nothing
else — in particular no `flush_buffer` call, no queue access. -/
def pauseLogger (st : LoggerState) : LoggerState :=
  { st with flags := { st.flags with paused := true } }

/-- Model of `CraneStateLogger.flush_buffer` (lines 85-95): drain the whole queue and,
if anything was drained, make one `store_state` call with it (returned as the
second component). -/
def flushBuffer (st : LoggerState) : LoggerState × Option (List Measurement) :=
  ({ st with queue := [] }, if st.queue.isEmpty then none else some st.queue)

/-- The individual flag writes `stop_logging` performs (lines 73-77). -/
inductive FlagWrite
  | clearPaused
  | clearRunning
deriving DecidableEq, Repr

/-- Effect of one flag write. -/
def applyWrite (fl : LoggerFlags) : FlagWrite → LoggerFlags
  | .clearPaused => { fl with paused := false }
  | .clearRunning => { fl with running := false }

/-- Model of `stop_logging`'s flag writes in source order: `self.paused.clear()`
(line 74) strictly before `self.running.clear()` (line 76), after which the
two worker threads are joined. -/
def stopWrites : List FlagWrite := [.clearPaused, .clearRunning]

/-- Apply a sequence of flag writes left to right. -/
def applyWrites (fl : LoggerFlags) (ws : List FlagWrite) : LoggerFlags :=
  ws.foldl applyWrite fl

/-- The control skeleton shared verbatim by `_logging_loop` (lines 101-104)
and `_writer_loop` (lines 142-145):
```
while running.is_set():        -- checkRunning
    while paused.is_set():     -- pauseWait
        time.sleep(0.1)
    <tick body>                -- body
```
`exited` is the state after the outer `while` fails, i.e. the thread function
returns and `join()` succeeds. -/
inductive WorkerPhase
  | checkRunning
  | pauseWait
  | body
  | exited
deriving DecidableEq, Repr

/-- One scheduling step of a worker under fixed flag values.  Note the
`pauseWait` case inspects only `paused` — the inner wait loop of both workers
never reads the `running` flag. -/
def workerStep (fl : LoggerFlags) : WorkerPhase → WorkerPhase
  | .checkRunning => if fl.running then .pauseWait else .exited
  | .pauseWait => if fl.paused then .pauseWait else .body
  | .body => .checkRunning
  | .exited => .exited

/-! ## Axis helpers: `PhysicalCrane.getRopeLength` (crane.py lines 360-361) -/

/-- Model of `PhysicalCrane.getRopeLength`: `hoist_max_length - hoistStepper.getPositionMm()`.
The code applies no clamping. -/
def getRopeLength (hoistMaxLength hoistPosMm : ℚ) : ℚ :=
  hoistMaxLength - hoistPosMm

/-- Clamp `x` into `[lo, hi]`, following the spec's words ("clamped to
`[0, hoist_max_length_mm]`"); a spec-side definition used to compare with the
code's unclamped computation. -/
def clampQ (lo hi x : ℚ) : ℚ := max lo (min hi x)

/-! ## WaypointExecutor: `PhysicalCrane.executeWaypointsPosition` (crane.py)

The execution is embedded as the sequence of commands it sends to the
hardware, with real time supplied by an oracle `clock : Nat → ℚ` consumed one
sample per `time.time()` call, and axis-communication faults supplied by an
oracle `axFail : Nat → Bool` indexed by the running count of axis commands
(a `true` entry models `AxisCommunicationError` raised by that command; the
code has no try/except, so the exception propagates out of the method).

Each emitted command is paired with the number of clock samples consumed
before it was issued, so `clock (tag - 1)` is the most recent `time.time()`
reading when the command went out.

Modelled from the spec: `Motor.setPositionMm`, `CraneIOUC.reset_input_buffer`
and `CraneIOUC.getState` are called by `executeWaypointsPosition` but are not
defined anywhere under src/; per spec §4.2/§4.4 `setPositionMm` issues a
single position target for the given millimeter position (`Cmd.setPositionMm`),
`reset_input_buffer` clears the sensor input buffer and `getState` reads the
current sensor frame (both sensor-side, not axis commands, so they cannot
raise `AxisCommunicationError`).  The numeric post-processing after the loop
(angle scaling, unit conversion, duplicate-timestamp removal) issues no
hardware commands and is not embedded. -/

/-- A waypoint (`crane.py`, class `Waypoint`): constructor
`Waypoint(t, x, v, a, l=150, dr=0, ddr=0)`. -/
structure Waypoint where
  t : ℚ
  x : ℚ
  v : ℚ
  a : ℚ
  l : ℚ
  dr : ℚ
  ddr : ℚ
deriving DecidableEq, Repr

/-- Motor calibration data used by the executor (`motors.py` line 32):
`mm_s_to_rpm = 60 / pulley_circumference`. -/
structure MotorCfg where
  pulleyCircumference : ℚ
deriving DecidableEq, Repr

/-- Model of `Motor.mm_s_to_rpm`. -/
def MotorCfg.mmSToRpm (c : MotorCfg) : ℚ := 60 / c.pulleyCircumference

/-- Hardware commands issued by `executeWaypointsPosition`. -/
inductive Cmd where
  | setPositionMode
  | setTorqueMode
  | setAccelLimit (a : ℤ)
  | setVelocityLimit (v : ℚ)
  | setPositionMm (x : ℚ)
  | setTorque (tq : ℤ)
  | getPositionMm
  | getVelocity
  | resetInputBuffer
  | getIOState
deriving DecidableEq, Repr

/-- Position-target commands (`setPositionMm`). -/
def isPosTargetCmd : Cmd → Bool
  | .setPositionMm _ => true
  | _ => false

/-- Torque-target commands (`setTorque`). -/
def isTorqueTargetCmd : Cmd → Bool
  | .setTorque _ => true
  | _ => false

/-- Environment of one execution: the wall clock (sample `i` is the value of
the `i`-th `time.time()` call) and the axis-fault oracle (whether the `n`-th
axis command raises `AxisCommunicationError`). -/
structure Env where
  clock : Nat → ℚ
  axFail : Nat → Bool

/-- Result of a modelled execution.  `fuelOut` is the model's cutoff for a
busy-wait that did not finish within the given fuel; `indexError` models the
`IndexError` of `waypoints[1]` on lists shorter than two. -/
inductive ExecRes
  | ok
  | axisError
  | fuelOut
  | indexError
deriving DecidableEq, Repr

/-- The busy-wait `while now < wp.t: now = time.time() - t0` (lines 216-217).
`clk` counts clock samples consumed so far.  Returns the final `now` and
sample count, or `none` if the fuel ran out with `now` still below target. -/
def busyWait (env : Env) (t0 tgt : ℚ) : ℚ → Nat → Nat → Option (ℚ × Nat)
  | now, clk, 0 => if now < tgt then none else some (now, clk)
  | now, clk, fuel + 1 =>
    if now < tgt then busyWait env t0 tgt (env.clock clk - t0) (clk + 1) fuel
    else some (now, clk)

/-- The per-waypoint loop `for wp in self.waypoints[1:]` (lines 212-239).
Arguments: remaining waypoints, the persistent `now` variable, the clock
sample count, the axis-command count.  Per iteration: one `wp_start` sample,
the busy wait, `setVelocityLimit(abs(wp.v)*mm_s_to_rpm)`, two samples
(`t.append(time.time()-t0)` and `tick`), `getPositionMm`, `getVelocity`, one
sample (`dt`), the sensor read, one sample (`wp_end`).  Returns the emitted
commands, the final clock and axis counters, and the result. -/
def execLoop (env : Env) (k t0 : ℚ) (fuel : Nat) :
    List Waypoint → ℚ → Nat → Nat → List (Cmd × Nat) × Nat × Nat × ExecRes
  | [], _, clk, ax => ([], clk, ax, .ok)
  | wp :: rest, now, clk, ax =>
    match busyWait env t0 wp.t now (clk + 1) fuel with
    | none => ([], clk + 1, ax, .fuelOut)
    | some (now', clk') =>
      if env.axFail ax then ([], clk', ax, .axisError) else
      let e1 : Cmd × Nat := (.setVelocityLimit (|wp.v| * k), clk')
      if env.axFail (ax + 1) then ([e1], clk' + 2, ax + 1, .axisError) else
      let e2 : Cmd × Nat := (.getPositionMm, clk' + 2)
      if env.axFail (ax + 2) then ([e1, e2], clk' + 2, ax + 2, .axisError) else
      let e3 : Cmd × Nat := (.getVelocity, clk' + 2)
      let e4 : Cmd × Nat := (.getIOState, clk' + 3)
      let r := execLoop env k t0 fuel rest now' (clk' + 4) (ax + 3)
      (e1 :: e2 :: e3 :: e4 :: r.1, r.2)

/-- Model of `PhysicalCrane.executeWaypointsPosition` (lines 177-286) as a command
trace.  Pre-loop, in source order: `setPositionMode` (185),
`getPositionMm` (194), `reset_input_buffer` (203), `setAccelLimit(2147483647)`
(206), `setVelocityLimit(abs(waypoints[1].v*mm_s_to_rpm))` (207),
`t0 = time.time()` (208, the first clock sample), `now = 0` (209),
`setPositionMm(waypoints[-1].x)` (210); then the loop over `waypoints[1:]`;
then `setTorqueMode` (242) and `setTorque(0)` (244).  There is no
try/except/finally anywhere in the method. -/
def executeWaypointsPosition (cfg : MotorCfg) (env : Env) (wps : List Waypoint)
    (fuel : Nat) : List (Cmd × Nat) × ExecRes :=
  match wps with
  | w0 :: w1 :: rest =>
    if env.axFail 0 then ([], .axisError) else
    if env.axFail 1 then ([(.setPositionMode, 0)], .axisError) else
    if env.axFail 2 then
      ([(.setPositionMode, 0), (.getPositionMm, 0), (.resetInputBuffer, 0)],
        .axisError) else
    if env.axFail 3 then
      ([(.setPositionMode, 0), (.getPositionMm, 0), (.resetInputBuffer, 0),
        (.setAccelLimit 2147483647, 0)], .axisError) else
    if env.axFail 4 then
      ([(.setPositionMode, 0), (.getPositionMm, 0), (.resetInputBuffer, 0),
        (.setAccelLimit 2147483647, 0),
        (.setVelocityLimit |w1.v * cfg.mmSToRpm|, 0)], .axisError) else
    let pre6 : List (Cmd × Nat) :=
      [(.setPositionMode, 0), (.getPositionMm, 0), (.resetInputBuffer, 0),
       (.setAccelLimit 2147483647, 0),
       (.setVelocityLimit |w1.v * cfg.mmSToRpm|, 0),
       (.setPositionMm ((w1 :: rest).getLastD w1).x, 1)]
    let r := execLoop env cfg.mmSToRpm (env.clock 0) fuel (w1 :: rest) 0 1 5
    match r.2.2.2 with
    | .ok =>
      if env.axFail r.2.2.1 then (pre6 ++ r.1, .axisError) else
      if env.axFail (r.2.2.1 + 1) then
        (pre6 ++ r.1 ++ [(.setTorqueMode, r.2.1)], .axisError) else
      (pre6 ++ r.1 ++ [(.setTorqueMode, r.2.1), (.setTorque 0, r.2.1)], .ok)
    | res => (pre6 ++ r.1, res)
  | _ => ([], .indexError)

/-- The `(limit value, clock sample count)` pairs of the `setVelocityLimit`
commands of a trace. -/
def velLimPairs (tr : List (Cmd × Nat)) : List (ℚ × Nat) :=
  tr.filterMap fun p =>
    match p.1 with
    | .setVelocityLimit v => some (v, p.2)
    | _ => none

/-- The command sequence one loop pass emits per remaining waypoint (used to
state the shape of a completed run's loop trace). -/
def loopCmds (k : ℚ) : List Waypoint → List Cmd
  | [] => []
  | wp :: rest =>
    Cmd.setVelocityLimit (|wp.v| * k) :: Cmd.getPositionMm :: Cmd.getVelocity ::
      Cmd.getIOState :: loopCmds k rest

/-- Concrete calibration for the executor theorems' witnesses:
`pulley_circumference = 60` mm, so `mm_s_to_rpm = 1`. -/
def cfgW : MotorCfg := ⟨60⟩

/-- Concrete wall clock for witnesses: the `time.time()` at index 0 (`t0`)
reads 0, every later sample reads 10. -/
def clockW : Nat → ℚ := fun i => if i = 0 then 0 else 10

/-- Fault-free environment. -/
def envOkW : Env := ⟨clockW, fun _ => false⟩

/-- Environment whose sixth axis command (the first in-loop
`setVelocityLimit`) raises `AxisCommunicationError`. -/
def envFailW : Env := ⟨clockW, fun n => n == 5⟩

/-- Waypoint `(t=0, x=0, v=0, a=0)`. -/
def wpA : Waypoint := ⟨0, 0, 0, 0, 150, 0, 0⟩

/-- Waypoint `(t=1, x=100, v=2, a=0)`. -/
def wpB : Waypoint := ⟨1, 100, 2, 0, 150, 0, 0⟩

/-! ## Theorems -/

example : findall [1, 2, 0, 0, 0, 0, 0, 0, 0, 0, 0, 0, 0] = [[2,0,0,0,0,0,0,0,0,0,0,0]] := by
  decide

example : findall [1, 10, 0, 0, 0, 0, 0, 0, 0, 0, 0, 0, 0] = [] := by decide

example : splitLast ([1] ++ [2,0,0,0,0,0,0,0,0,0,0,0] ++ [2,0,0,0,0,0,0,0,0,0,0,0])
    [2,0,0,0,0,0,0,0,0,0,0,0] = [] := by decide

/-- Claim C5: The sampler worker preserves the queue-capacity invariant: when
the queue already holds `cap` samples, attempting to enqueue one more returns
the queue unchanged — identical contents, still size `cap`, the newest sample
dropped with a warning (never an older one).  `samplerEnqueue` is a total
function mirroring the code's check-then-put, which never blocks: the sampler
is the queue's only producer. -/
theorem samplerEnqueue_at_capacity (cap : Nat) (q : List Measurement)
    (m : Measurement) (hfull : q.length = cap) :
    samplerEnqueue cap q m = (q, true) ∧
      (samplerEnqueue cap q m).1.length = cap := by
  have h : ¬ q.length < cap := by omega
  simp [samplerEnqueue, h, hfull]

/-- Witness for `samplerEnqueue_at_capacity`: a queue at capacity 2. -/
theorem samplerEnqueue_at_capacity_witness :
    samplerEnqueue 2 [sampleM, sampleM] sampleM = ([sampleM, sampleM], true) ∧
      (samplerEnqueue 2 [sampleM, sampleM] sampleM).1.length = 2 :=
  samplerEnqueue_at_capacity 2 [sampleM, sampleM] sampleM rfl

/-- Claim C10: `stop_logging` terminates and joins both workers even when
invoked while the logger is paused: (1) its flag-write sequence — clear
`paused` first (line 74), then clear `running` (line 76) — leaves both flags
false from any starting flags; (2) once both flags are false, a worker reaches
`exited` from any phase within three scheduling steps, so the thread function
returns and `join()` succeeds; (3) clearing `paused` is necessary: while
`paused` stays set a worker in the inner pause-wait loop stays there forever,
for either value of `running`, because that loop never checks the running
flag. -/
theorem stop_logging_joins_workers :
    (∀ fl : LoggerFlags, applyWrites fl stopWrites = ⟨false, false⟩) ∧
    (∀ ph : WorkerPhase, (workerStep ⟨false, false⟩)^[3] ph = .exited) ∧
    (∀ (r : Bool) (n : Nat), (workerStep ⟨r, true⟩)^[n] .pauseWait = .pauseWait) := by
  refine ⟨fun fl => rfl, fun ph => ?_, fun r n => ?_⟩
  · cases ph <;> rfl
  · induction n with
    | zero => rfl
    | succ k ih =>
      rw [Function.iterate_succ_apply,
        show workerStep ⟨r, true⟩ .pauseWait = .pauseWait from rfl, ih]

/-- Claim C9, counterexample: With `hoist_max_length = 100` and a hoist position
150 inside `[0, position_limit]` for `position_limit = 200`, `getRopeLength`
reports −50: not the clamped value (0) and outside `[0, 100]` — the code
applies no clamping, so the claim fails whenever the position limit exceeds
the cable length. -/
theorem getRopeLength_claim_counterexample :
    (0 : ℚ) ≤ 150 ∧ (150 : ℚ) ≤ 200 ∧
      getRopeLength 100 150 ≠ clampQ 0 100 (100 - 150) ∧
      getRopeLength 100 150 < 0 := by
  refine ⟨by norm_num, by norm_num, ?_, ?_⟩ <;>
    norm_num [getRopeLength, clampQ]

/-- Claim C9, amended: Provided the hoist position limit does not exceed the
cable length (`position_limit_mm ≤ hoist_max_length_mm`), for every hoist
position in `[0, position_limit_mm]` the value reported by `getRopeLength`
(computed without clamping) coincides with
`hoist_max_length_mm − hoist_pos_mm` clamped to `[0, hoist_max_length_mm]`
and never falls outside that interval. -/
theorem getRopeLength_bounded (maxLen limit pos : ℚ) (h0 : 0 ≤ pos)
    (h1 : pos ≤ limit) (h2 : limit ≤ maxLen) :
    getRopeLength maxLen pos = clampQ 0 maxLen (maxLen - pos) ∧
      0 ≤ getRopeLength maxLen pos ∧ getRopeLength maxLen pos ≤ maxLen := by
  unfold getRopeLength clampQ
  refine ⟨?_, by linarith, by linarith⟩
  rw [min_eq_right (by linarith), max_eq_right (by linarith)]

/-- Witness for `getRopeLength_bounded`: cable 700 mm, limit 500 mm,
position 300 mm. -/
theorem getRopeLength_bounded_witness :
    getRopeLength 700 300 = clampQ 0 700 (700 - 300) ∧
      0 ≤ getRopeLength 700 300 ∧ getRopeLength 700 300 ≤ 700 :=
  getRopeLength_bounded 700 500 300 (by norm_num) (by norm_num) (by norm_num)

/-- Claim C8: Evaluating the code at the failing input: with one sample queued,
`pause()` — which only sets the paused event (line 181) — leaves that sample
queued and makes no `store_state` call, whereas `flush_buffer()` at the same
state drains the queue and stores the sample.  `pause` does not trigger a
flush, contradicting the repository's own test comment
`# Because pause flushes` (tests/test_gantry_state_logger.py line 48) and the
spec. -/
theorem pause_does_not_flush :
    (pauseLogger ⟨[sampleM], ⟨true, false⟩⟩).queue = [sampleM] ∧
    (pauseLogger ⟨[sampleM], ⟨true, false⟩⟩).flags.paused = true ∧
    (flushBuffer ⟨[sampleM], ⟨true, false⟩⟩).1.queue = [] ∧
    (flushBuffer ⟨[sampleM], ⟨true, false⟩⟩).2 = some [sampleM] :=
  ⟨rfl, rfl, rfl, rfl⟩

/-- Draining the queue only appends to the writer's batch: the samples already
held stay in front, the newly collected (deduplicated) ones follow. -/
lemma collectQueue_measurements_append (q : List Measurement) :
    ∀ st : WriterState, ∃ ms,
      (collectQueue st q).measurements = st.measurements ++ ms := by
  induction q with
  | nil => exact fun st => ⟨[], by simp [collectQueue]⟩
  | cons m rest ih =>
    intro st
    by_cases h : m.ts ∈ st.seen
    · simpa [collectQueue, h] using ih st
    · obtain ⟨ms, hms⟩ := ih ⟨st.measurements ++ [m], st.seen ++ [m.ts]⟩
      exact ⟨[m] ++ ms, by simp [collectQueue, h]; simpa using hms⟩

/-- Claim C4, counterexample: One sample is collected on a tick whose
`store_state` call raises; on the next tick (empty queue, storage healthy) the
very same sample is submitted again — the batch is retained across ticks, not
lost. -/
theorem writer_error_resubmits_counterexample :
    (writerTick initWriterState [sampleM] false).1
        = ⟨[sampleM], [sampleM.ts]⟩ ∧
    (writerTick initWriterState [sampleM] false).2 = some [sampleM] ∧
    (writerTick (writerTick initWriterState [sampleM] false).1 [] true).2
        = some [sampleM] :=
  ⟨rfl, rfl, rfl⟩

/-- Claim C4, amended: When the batched `store_state` call raises, the error is
only logged and the worker continues on its next tick, but the batch
collected for that tick is *not* lost: the writer keeps exactly the collected
batch (lines 167-168 run only on success), and the next tick that attempts a
write re-submits those samples as the front of its batch. -/
theorem writer_error_retains_batch (st : WriterState) (q : List Measurement)
    (hne : (collectQueue st q).measurements ≠ []) :
    (writerTick st q false).1 = collectQueue st q ∧
    (writerTick st q false).2 = some (collectQueue st q).measurements ∧
    ∀ q' : List Measurement, ∃ rest,
      (writerTick (writerTick st q false).1 q' true).2
        = some ((collectQueue st q).measurements ++ rest) := by
  refine ⟨by simp [writerTick, hne], by simp [writerTick, hne], fun q' => ?_⟩
  obtain ⟨ms, hms⟩ := collectQueue_measurements_append q' (collectQueue st q)
  refine ⟨ms, ?_⟩
  have h1 : (writerTick st q false).1 = collectQueue st q := by
    simp [writerTick, hne]
  rw [h1]
  simp [writerTick, hms, hne]

/-- Witness for `writer_error_retains_batch`: one sample, failing store,
then an empty-queue successful tick. -/
theorem writer_error_retains_batch_witness :
    (writerTick initWriterState [sampleM] false).1
        = collectQueue initWriterState [sampleM] ∧
    (writerTick initWriterState [sampleM] false).2
        = some (collectQueue initWriterState [sampleM]).measurements ∧
    ∃ rest, (writerTick (writerTick initWriterState [sampleM] false).1 [] true).2
        = some ((collectQueue initWriterState [sampleM]).measurements ++ rest) := by
  have h := writer_error_retains_batch initWriterState [sampleM] (by decide)
  exact ⟨h.1, h.2.1, h.2.2 []⟩

/-- Claim C6: Carry-forward: if the buffer, after appending the bytes read on
this call, contains no pattern match, `getStatus` leaves the buffer exactly
as it is (the decode truncates nothing) and returns the previously decoded
`(angle, omega, windspeed)` unchanged; on the very first call — the state of
`__init__`, before any frame was ever decoded — these are the zero frame
`(0.0, 0.0, 0.0)` (float32 bit pattern 0). -/
theorem getStatus_carry_forward :
    (∀ (st : UCState) (incoming : List Nat),
        findall (st.buffer ++ incoming) = [] →
        getStatus st incoming
          = ({ st with buffer := st.buffer ++ incoming },
             (st.angle, st.omega, st.windspeed))) ∧
    ∀ incoming : List Nat, findall incoming = [] →
      (getStatus initUCState incoming).2 = (0, 0, 0) := by
  have h : ∀ (st : UCState) (incoming : List Nat),
      findall (st.buffer ++ incoming) = [] →
      getStatus st incoming
        = ({ st with buffer := st.buffer ++ incoming },
           (st.angle, st.omega, st.windspeed)) := by
    intro st incoming hnone
    simp [getStatus, hnone]
  refine ⟨h, fun incoming hnone => ?_⟩
  rw [h initUCState incoming (by simpa [initUCState] using hnone)]
  rfl

/-- Witness for `getStatus_carry_forward`: a matchless buffer with previous
values (5, 6, 7), and a matchless first call. -/
theorem getStatus_carry_forward_witness :
    getStatus ⟨5, 6, 7, [2, 3]⟩ [4, 1]
      = (⟨5, 6, 7, [2, 3, 4, 1]⟩, (5, 6, 7)) ∧
    (getStatus initUCState [7]).2 = (0, 0, 0) := by
  constructor
  · have h := getStatus_carry_forward.1 ⟨5, 6, 7, [2, 3]⟩ [4, 1] (by decide)
    simpa using h
  · exact getStatus_carry_forward.2 [7] (by decide)

/-- Soundness of the regex scan: every captured payload has length 12,
contains no newline byte (`re`'s `.` without DOTALL), and occurs in the
buffer immediately after a `0x01` start byte. -/
lemma findallAux_sound :
    ∀ (fuel : Nat) (buf p : List Nat), p ∈ findallAux fuel buf →
      p.length = 12 ∧ (∀ b ∈ p, b ≠ 10) ∧
      ∃ n, n + 13 ≤ buf.length ∧
        buf.drop n = 1 :: (p ++ buf.drop (n + 13)) := by
  intro fuel
  induction fuel with
  | zero => intro buf p hp; simp [findallAux] at hp
  | succ fuel ih =>
    intro buf p hp
    cases buf with
    | nil => simp [findallAux] at hp
    | cons b rest =>
      rw [findallAux] at hp
      split at hp
      case isTrue hc =>
        obtain ⟨hb, hpo⟩ := Bool.and_eq_true_iff.mp hc
        have hb1 : b = 1 := by simpa using hb
        have hpo' : 12 ≤ rest.length ∧ ∀ x ∈ rest.take 12, ¬ x = 10 := by
          simpa [payloadOk] using hpo
        have hlen' : (rest.take 12).length = 12 := by
          rw [List.length_take]; omega
        rcases List.mem_cons.mp hp with rfl | hp
        · refine ⟨hlen', ?_, 0, by simp; omega, ?_⟩
          · exact fun x hx => hpo'.2 x hx
          · simp [hb1, List.drop_succ_cons]
        · obtain ⟨hl, h10', n', hb', hdrop'⟩ := ih (rest.drop 12) p hp
          refine ⟨hl, h10', n' + 13, ?_, ?_⟩
          · rw [List.length_drop] at hb'; simp; omega
          · have e1 : (b :: rest).drop (n' + 13) = (rest.drop 12).drop n' := by
              rw [List.drop_drop, List.drop_succ_cons]
              congr 1
              omega
            have e2 : (b :: rest).drop (n' + 13 + 13) = (rest.drop 12).drop (n' + 13) := by
              rw [List.drop_drop, List.drop_succ_cons]
              congr 1
              omega
            rw [e1, e2, hdrop']
      case isFalse hc =>
        obtain ⟨hl, h10', n', hb', hdrop'⟩ := ih rest p hp
        refine ⟨hl, h10', n' + 1, by simp; omega, ?_⟩
        have e1 : (b :: rest).drop (n' + 1) = rest.drop n' := List.drop_succ_cons
        have e2 : (b :: rest).drop (n' + 1 + 13) = rest.drop (n' + 13) := by
          rw [show n' + 1 + 13 = (n' + 13) + 1 from rfl, List.drop_succ_cons]
        rw [e1, e2, hdrop']

/-- Lemma: `findSub` only reports positions at which the separator actually fits. -/
lemma findSub_bound :
    ∀ (buf sep : List Nat) (i : Nat), findSub buf sep = some i →
      i + sep.length ≤ buf.length := by
  intro buf
  induction buf with
  | nil =>
    intro sep i h
    cases sep with
    | nil => simp [findSub] at h; omega
    | cons s ss => simp [findSub] at h
  | cons b rest ih =>
    intro sep i h
    rw [findSub] at h
    split at h
    case isTrue hpre =>
      have hi : 0 = i := Option.some.inj h
      subst hi
      have hp := List.isPrefixOf_iff_prefix.mp hpre
      simpa using hp.length_le
    case isFalse hpre =>
      cases hr : findSub rest sep with
      | none => rw [hr] at h; simp at h
      | some j =>
        rw [hr] at h
        have hij : j + 1 = i := by simpa using h
        have := ih sep j hr
        simp
        omega

/-- The split remainder is a suffix of the buffer. -/
lemma splitLastAux_suffix :
    ∀ (fuel : Nat) (buf sep : List Nat), splitLastAux fuel buf sep <:+ buf := by
  intro fuel
  induction fuel with
  | zero => intro buf sep; exact List.suffix_refl _
  | succ fuel ih =>
    intro buf sep
    cases h : findSub buf sep with
    | none => rw [splitLastAux, h]
    | some i =>
      rw [splitLastAux, h]
      exact (ih _ _).trans (List.drop_suffix _ _)

/-- With enough fuel (one unit per byte suffices, as every step discards at
least one byte), the split remainder contains no further occurrence of the
(nonempty) separator. -/
lemma splitLastAux_no_sub :
    ∀ (fuel : Nat) (buf sep : List Nat), sep ≠ [] → buf.length ≤ fuel →
      findSub (splitLastAux fuel buf sep) sep = none := by
  intro fuel
  induction fuel with
  | zero =>
    intro buf sep hsep hlen
    have hb : buf = [] := List.length_eq_zero.mp (Nat.le_zero.mp hlen)
    subst hb
    rw [splitLastAux]
    cases sep with
    | nil => exact absurd rfl hsep
    | cons s ss => rfl
  | succ fuel ih =>
    intro buf sep hsep hlen
    cases h : findSub buf sep with
    | none =>
      rw [splitLastAux, h]
      exact h
    | some i =>
      rw [splitLastAux, h]
      apply ih _ _ hsep
      have hb := findSub_bound buf sep i h
      have hsl : 1 ≤ sep.length := by
        cases sep with
        | nil => exact absurd rfl hsep
        | cons s ss => simp
      rw [List.length_drop]
      omega

/-- Claim C1, counterexample: Two concrete buffers refute the claim as stated.
First, `re`'s `.` does not match the newline byte: the buffer
`0x01` followed by the 12 payload bytes `[10, 0, …, 0]` is exactly one match
of "start byte followed by any 12 bytes" (as `specFindall` shows), yet the
code's scan finds nothing, so `getStatus` carries the old values forward and
does not touch the buffer instead of decoding the frame and truncating.
Second, the truncation is `buffer.split(last)[-1]`, not "the bytes strictly
after the match": for the buffer `0x01 ++ q ++ q` with payload
`q = [2, 0, …, 0]`, the single match covers the first 13 bytes and the bytes
strictly after it are the second copy of `q`, yet the code leaves the empty
buffer because the split also consumes the later occurrence of `q`. -/
theorem getStatus_decode_claim_counterexample :
    (specFindall (1 :: [10, 0, 0, 0, 0, 0, 0, 0, 0, 0, 0, 0])
        = [[10, 0, 0, 0, 0, 0, 0, 0, 0, 0, 0, 0]] ∧
      findall (1 :: [10, 0, 0, 0, 0, 0, 0, 0, 0, 0, 0, 0]) = [] ∧
      (getStatus initUCState (1 :: [10, 0, 0, 0, 0, 0, 0, 0, 0, 0, 0, 0])).2
        = (0, 0, 0) ∧
      unpackFFF [10, 0, 0, 0, 0, 0, 0, 0, 0, 0, 0, 0] ≠ (0, 0, 0) ∧
      (getStatus initUCState (1 :: [10, 0, 0, 0, 0, 0, 0, 0, 0, 0, 0, 0])).1.buffer
        = 1 :: [10, 0, 0, 0, 0, 0, 0, 0, 0, 0, 0, 0]) ∧
    (findall (1 :: ([2, 0, 0, 0, 0, 0, 0, 0, 0, 0, 0, 0]
          ++ [2, 0, 0, 0, 0, 0, 0, 0, 0, 0, 0, 0]))
        = [[2, 0, 0, 0, 0, 0, 0, 0, 0, 0, 0, 0]] ∧
      (1 :: ([2, 0, 0, 0, 0, 0, 0, 0, 0, 0, 0, 0]
          ++ [2, 0, 0, 0, 0, 0, 0, 0, 0, 0, 0, 0])).drop 13
        = [2, 0, 0, 0, 0, 0, 0, 0, 0, 0, 0, 0] ∧
      (getStatus initUCState (1 :: ([2, 0, 0, 0, 0, 0, 0, 0, 0, 0, 0, 0]
          ++ [2, 0, 0, 0, 0, 0, 0, 0, 0, 0, 0, 0]))).1.buffer = [] ∧
      ([2, 0, 0, 0, 0, 0, 0, 0, 0, 0, 0, 0] : List Nat) ≠ []) := by
  refine ⟨⟨?_, ?_, ?_, ?_, ?_⟩, ⟨?_, ?_, ?_, ?_⟩⟩ <;> decide

/-- Claim C1, amended: `getStatus` finds the non-overlapping left-to-right
matches of "one `0x01` start byte followed by 12 payload bytes, none equal to
`0x0A`" (the regex `\x01(.{12})` without DOTALL); if at least one match
exists it returns the three little-endian float32 values of the last match
and truncates the buffer with `buffer.split(last)[-1]`: the remainder after
the final non-overlapping occurrence of that match's 12-byte payload — a
suffix of the buffer that contains no further occurrence of the payload
(everything before and including that occurrence, in particular every
earlier match, is discarded).  This equals the bytes strictly after the
match whenever the payload does not reoccur in the trailing bytes. -/
theorem getStatus_decode_last_match (st : UCState) (incoming : List Nat)
    (last : List Nat)
    (hlast : (findall (st.buffer ++ incoming)).getLast? = some last) :
    getStatus st incoming
      = ({ angle := (unpackFFF last).1, omega := (unpackFFF last).2.1,
           windspeed := (unpackFFF last).2.2,
           buffer := splitLast (st.buffer ++ incoming) last }, unpackFFF last) ∧
    (∀ p ∈ findall (st.buffer ++ incoming),
        p.length = 12 ∧ (∀ b ∈ p, b ≠ 10) ∧
        ∃ n, n + 13 ≤ (st.buffer ++ incoming).length ∧
          (st.buffer ++ incoming).drop n
            = 1 :: (p ++ (st.buffer ++ incoming).drop (n + 13))) ∧
    (getStatus st incoming).1.buffer <:+ st.buffer ++ incoming ∧
    findSub (getStatus st incoming).1.buffer last = none := by
  have hmem : last ∈ findall (st.buffer ++ incoming) :=
    List.mem_of_getLast?_eq_some hlast
  have hlen12 := (findallAux_sound _ _ last hmem).1
  have hne : last ≠ [] := by
    intro h
    rw [h] at hlen12
    simp at hlen12
  have hg : getStatus st incoming
      = ({ angle := (unpackFFF last).1, omega := (unpackFFF last).2.1,
           windspeed := (unpackFFF last).2.2,
           buffer := splitLast (st.buffer ++ incoming) last }, unpackFFF last) := by
    simp [getStatus, hlast]
  refine ⟨hg, fun p hp => findallAux_sound _ _ p hp, ?_, ?_⟩
  · rw [hg]
    exact splitLastAux_suffix _ _ _
  · rw [hg]
    exact splitLastAux_no_sub _ _ _ hne le_rfl

/-- Witness for `getStatus_decode_last_match`: a resync buffer — garbage byte
7, one well-formed frame with payload `[2, 0, …, 0]`, trailing byte 9. -/
theorem getStatus_decode_last_match_witness :
    getStatus initUCState (7 :: 1 :: ([2, 0, 0, 0, 0, 0, 0, 0, 0, 0, 0, 0] ++ [9]))
      = ({ angle := (unpackFFF [2, 0, 0, 0, 0, 0, 0, 0, 0, 0, 0, 0]).1,
           omega := (unpackFFF [2, 0, 0, 0, 0, 0, 0, 0, 0, 0, 0, 0]).2.1,
           windspeed := (unpackFFF [2, 0, 0, 0, 0, 0, 0, 0, 0, 0, 0, 0]).2.2,
           buffer := splitLast
             (initUCState.buffer ++ (7 :: 1 :: ([2, 0, 0, 0, 0, 0, 0, 0, 0, 0, 0, 0] ++ [9])))
             [2, 0, 0, 0, 0, 0, 0, 0, 0, 0, 0, 0] },
         unpackFFF [2, 0, 0, 0, 0, 0, 0, 0, 0, 0, 0, 0]) ∧
    (∀ p ∈ findall (initUCState.buffer
        ++ (7 :: 1 :: ([2, 0, 0, 0, 0, 0, 0, 0, 0, 0, 0, 0] ++ [9]))),
        p.length = 12 ∧ (∀ b ∈ p, b ≠ 10) ∧
        ∃ n, n + 13 ≤ (initUCState.buffer
            ++ (7 :: 1 :: ([2, 0, 0, 0, 0, 0, 0, 0, 0, 0, 0, 0] ++ [9]))).length ∧
          (initUCState.buffer
            ++ (7 :: 1 :: ([2, 0, 0, 0, 0, 0, 0, 0, 0, 0, 0, 0] ++ [9]))).drop n
            = 1 :: (p ++ (initUCState.buffer
                ++ (7 :: 1 :: ([2, 0, 0, 0, 0, 0, 0, 0, 0, 0, 0, 0] ++ [9]))).drop (n + 13))) ∧
    (getStatus initUCState
        (7 :: 1 :: ([2, 0, 0, 0, 0, 0, 0, 0, 0, 0, 0, 0] ++ [9]))).1.buffer
      <:+ initUCState.buffer ++ (7 :: 1 :: ([2, 0, 0, 0, 0, 0, 0, 0, 0, 0, 0, 0] ++ [9])) ∧
    findSub (getStatus initUCState
        (7 :: 1 :: ([2, 0, 0, 0, 0, 0, 0, 0, 0, 0, 0, 0] ++ [9]))).1.buffer
      [2, 0, 0, 0, 0, 0, 0, 0, 0, 0, 0, 0] = none :=
  getStatus_decode_last_match initUCState
    (7 :: 1 :: ([2, 0, 0, 0, 0, 0, 0, 0, 0, 0, 0, 0] ++ [9]))
    [2, 0, 0, 0, 0, 0, 0, 0, 0, 0, 0, 0] (by decide)

/-- The loop never issues a position target. -/
lemma loopCmds_filter_pos (k : ℚ) :
    ∀ wps : List Waypoint, (loopCmds k wps).filter isPosTargetCmd = [] := by
  intro wps
  induction wps with
  | nil => rfl
  | cons wp rest ih => simpa [loopCmds, isPosTargetCmd] using ih

/-- The loop never issues a torque target. -/
lemma loopCmds_filter_torque (k : ℚ) :
    ∀ wps : List Waypoint, (loopCmds k wps).filter isTorqueTargetCmd = [] := by
  intro wps
  induction wps with
  | nil => rfl
  | cons wp rest ih => simpa [loopCmds, isTorqueTargetCmd] using ih

/-- On a completed run the loop emits exactly one block of
`setVelocityLimit(|wp.v|*k)` / position read / velocity read / sensor read
per remaining waypoint, in waypoint order. -/
lemma execLoop_ok_map_fst (env : Env) (k t0 : ℚ) (fuel : Nat) :
    ∀ (wps : List Waypoint) (now : ℚ) (clk ax : Nat),
      (execLoop env k t0 fuel wps now clk ax).2.2.2 = .ok →
      (execLoop env k t0 fuel wps now clk ax).1.map Prod.fst = loopCmds k wps := by
  intro wps
  induction wps with
  | nil => intro now clk ax _; rfl
  | cons wp rest ih =>
    intro now clk ax hok
    rw [execLoop] at hok ⊢
    cases hbw : busyWait env t0 wp.t now (clk + 1) fuel with
    | none => rw [hbw] at hok; simp at hok
    | some pr =>
      obtain ⟨now', clk'⟩ := pr
      rw [hbw] at hok
      dsimp only at hok ⊢
      by_cases h0 : env.axFail ax = true
      · rw [if_pos h0] at hok; simp at hok
      · rw [if_neg h0] at hok ⊢
        by_cases h1 : env.axFail (ax + 1) = true
        · rw [if_pos h1] at hok; simp at hok
        · rw [if_neg h1] at hok ⊢
          by_cases h2 : env.axFail (ax + 2) = true
          · rw [if_pos h2] at hok; simp at hok
          · rw [if_neg h2] at hok ⊢
            have := ih now' (clk' + 4) (ax + 3) hok
            simp only [List.map_cons, this, loopCmds]

/-- No branch of the loop ever emits a torque command, completed or not. -/
lemma execLoop_filter_torque (env : Env) (k t0 : ℚ) (fuel : Nat) :
    ∀ (wps : List Waypoint) (now : ℚ) (clk ax : Nat),
      ((execLoop env k t0 fuel wps now clk ax).1.map Prod.fst).filter
        isTorqueTargetCmd = [] := by
  intro wps
  induction wps with
  | nil => intro now clk ax; rfl
  | cons wp rest ih =>
    intro now clk ax
    rw [execLoop]
    cases hbw : busyWait env t0 wp.t now (clk + 1) fuel with
    | none => rfl
    | some pr =>
      obtain ⟨now', clk'⟩ := pr
      dsimp only
      by_cases h0 : env.axFail ax = true
      · rw [if_pos h0]; rfl
      · rw [if_neg h0]
        by_cases h1 : env.axFail (ax + 1) = true
        · rw [if_pos h1]; rfl
        · rw [if_neg h1]
          by_cases h2 : env.axFail (ax + 2) = true
          · rw [if_pos h2]; rfl
          · rw [if_neg h2]
            simpa [isTorqueTargetCmd] using ih now' (clk' + 4) (ax + 3)

/-- The busy wait only finishes once `now` has reached the target time. -/
lemma busyWait_ge (env : Env) (t0 tgt : ℚ) :
    ∀ (fuel : Nat) (now : ℚ) (clk : Nat) (now' : ℚ) (clk' : Nat),
      busyWait env t0 tgt now clk fuel = some (now', clk') → tgt ≤ now' := by
  intro fuel
  induction fuel with
  | zero =>
    intro now clk now' clk' h
    rw [busyWait] at h
    split at h
    · simp at h
    · next hge =>
      obtain ⟨h1, h2⟩ := Prod.mk.injEq .. ▸ Option.some.inj h
      rw [← h1]
      exact not_lt.mp hge
  | succ fuel ih =>
    intro now clk now' clk' h
    rw [busyWait] at h
    split at h
    · exact ih _ _ _ _ h
    · next hge =>
      obtain ⟨h1, h2⟩ := Prod.mk.injEq .. ▸ Option.some.inj h
      rw [← h1]
      exact not_lt.mp hge

/-- The `now` value the busy wait finishes with is either the value it
started from (no iteration ran) or the clock sample it measured last. -/
lemma busyWait_src (env : Env) (t0 tgt : ℚ) :
    ∀ (fuel : Nat) (now : ℚ) (clk : Nat) (now' : ℚ) (clk' : Nat),
      busyWait env t0 tgt now clk fuel = some (now', clk') →
      (now' = now ∧ clk' = clk) ∨
      (clk < clk' ∧ now' = env.clock (clk' - 1) - t0) := by
  intro fuel
  induction fuel with
  | zero =>
    intro now clk now' clk' h
    rw [busyWait] at h
    split at h
    · simp at h
    · obtain ⟨h1, h2⟩ := Prod.mk.injEq .. ▸ Option.some.inj h
      exact Or.inl ⟨h1.symm, h2.symm⟩
  | succ fuel ih =>
    intro now clk now' clk' h
    rw [busyWait] at h
    split at h
    · rcases ih _ _ _ _ h with ⟨hn, hc⟩ | ⟨hlt, hn⟩
      · subst hc
        exact Or.inr ⟨Nat.lt_succ_self _, by simpa using hn⟩
      · exact Or.inr ⟨by omega, hn⟩
    · obtain ⟨h1, h2⟩ := Prod.mk.injEq .. ▸ Option.some.inj h
      exact Or.inl ⟨h1.symm, h2.symm⟩

/-- Timing of a completed loop: the `i`-th velocity-limit command (one per
remaining waypoint, in order) carries the value `|wp.v| * mm_s_to_rpm`, and
it is issued only once the most recent `time.time()` measurement (index
`tag − 1` for emission tag `tag`) has reached `wp.t` past `t0`. -/
lemma execLoop_timing (env : Env) (k t0 : ℚ) (fuel : Nat)
    (hmono : ∀ i j, i ≤ j → env.clock i ≤ env.clock j)
    (ht0 : t0 = env.clock 0) :
    ∀ (wps : List Waypoint) (now : ℚ) (clk ax : Nat),
      (now = 0 ∨ ∃ j, j < clk ∧ now = env.clock j - t0) →
      (execLoop env k t0 fuel wps now clk ax).2.2.2 = .ok →
      List.Forall₂ (fun (wp : Waypoint) (p : ℚ × Nat) =>
          p.1 = |wp.v| * k ∧ wp.t ≤ env.clock (p.2 - 1) - t0)
        wps (velLimPairs (execLoop env k t0 fuel wps now clk ax).1) := by
  intro wps
  induction wps with
  | nil => intro now clk ax _ _; exact List.Forall₂.nil
  | cons wp rest ih =>
    intro now clk ax hnow hok
    rw [execLoop] at hok ⊢
    cases hbw : busyWait env t0 wp.t now (clk + 1) fuel with
    | none => rw [hbw] at hok; simp at hok
    | some pr =>
      obtain ⟨now', clk'⟩ := pr
      rw [hbw] at hok
      dsimp only at hok ⊢
      by_cases h0 : env.axFail ax = true
      · rw [if_pos h0] at hok; simp at hok
      · rw [if_neg h0] at hok ⊢
        by_cases h1 : env.axFail (ax + 1) = true
        · rw [if_pos h1] at hok; simp at hok
        · rw [if_neg h1] at hok ⊢
          by_cases h2 : env.axFail (ax + 2) = true
          · rw [if_pos h2] at hok; simp at hok
          · rw [if_neg h2] at hok ⊢
            have hge := busyWait_ge env t0 wp.t fuel now (clk + 1) now' clk' hbw
            have hsrc := busyWait_src env t0 wp.t fuel now (clk + 1) now' clk' hbw
            have htag : wp.t ≤ env.clock (clk' - 1) - t0 := by
              rcases hsrc with ⟨hn, hc⟩ | ⟨hlt, hn⟩
              · subst hc
                rcases hnow with h0' | ⟨j, hj, hjv⟩
                · have hcl : env.clock 0 ≤ env.clock (clk + 1 - 1) :=
                    hmono 0 _ (Nat.zero_le _)
                  rw [ht0]
                  rw [hn, h0'] at hge
                  linarith
                · have hcl : env.clock j ≤ env.clock (clk + 1 - 1) :=
                    hmono j _ (by omega)
                  rw [hn, hjv] at hge
                  linarith
              · rw [hn] at hge
                exact hge
            have hnow' : now' = 0 ∨ ∃ j, j < clk' + 4 ∧ now' = env.clock j - t0 := by
              rcases hsrc with ⟨hn, hc⟩ | ⟨hlt, hn⟩
              · rcases hnow with h0' | ⟨j, hj, hjv⟩
                · exact Or.inl (hn.trans h0')
                · exact Or.inr ⟨j, by omega, hn.trans hjv⟩
              · exact Or.inr ⟨clk' - 1, by omega, hn⟩
            have hrec := ih now' (clk' + 4) (ax + 3) hnow' hok
            refine List.Forall₂.cons ⟨rfl, htag⟩ ?_
            simpa [velLimPairs] using hrec

/-- Claim C2: On a waypoint list of at least two time-sorted elements, a
completed `executeWaypointsPosition` run starts with exactly the Configuring
commands, in order: switch to position mode, acceleration limit set to the
device maximum `2147483647`, velocity limit set to `|waypoints[1].v|`
converted to device units (`* mm_s_to_rpm`), and one position target equal to
the last waypoint's `x` (the two interleaved reads are the pre-motion
position sample and the sensor-buffer reset); and that position target is the
only one of the entire execution — no later step issues another. -/
theorem executor_single_position_target (cfg : MotorCfg) (env : Env)
    (fuel : Nat) (w0 w1 : Waypoint) (rest : List Waypoint) (wlast : Waypoint)
    (hlast : (w0 :: w1 :: rest).getLast? = some wlast)
    (hsort : List.Pairwise (fun a b : Waypoint => a.t ≤ b.t) (w0 :: w1 :: rest))
    (hcirc : 0 < cfg.pulleyCircumference)
    (hok : (executeWaypointsPosition cfg env (w0 :: w1 :: rest) fuel).2 = .ok) :
    ((executeWaypointsPosition cfg env (w0 :: w1 :: rest) fuel).1.map Prod.fst).take 6
      = [Cmd.setPositionMode, Cmd.getPositionMm, Cmd.resetInputBuffer,
         Cmd.setAccelLimit 2147483647,
         Cmd.setVelocityLimit (|w1.v| * cfg.mmSToRpm),
         Cmd.setPositionMm wlast.x] ∧
    ((executeWaypointsPosition cfg env (w0 :: w1 :: rest) fuel).1.map Prod.fst).filter
        isPosTargetCmd = [Cmd.setPositionMm wlast.x] := by
  have hk : |w1.v * cfg.mmSToRpm| = |w1.v| * cfg.mmSToRpm := by
    rw [abs_mul]
    congr 1
    exact abs_of_pos (div_pos (by norm_num) hcirc)
  have hlastD : (w1 :: rest).getLast?.getD w1 = wlast := by
    rw [List.getLast?_cons_cons] at hlast
    rw [hlast]
    rfl
  rw [executeWaypointsPosition] at hok ⊢
  by_cases h0 : env.axFail 0 = true
  · rw [if_pos h0] at hok; simp at hok
  · rw [if_neg h0] at hok ⊢
    by_cases h1 : env.axFail 1 = true
    · rw [if_pos h1] at hok; simp at hok
    · rw [if_neg h1] at hok ⊢
      by_cases h2 : env.axFail 2 = true
      · rw [if_pos h2] at hok; simp at hok
      · rw [if_neg h2] at hok ⊢
        by_cases h3 : env.axFail 3 = true
        · rw [if_pos h3] at hok; simp at hok
        · rw [if_neg h3] at hok ⊢
          by_cases h4 : env.axFail 4 = true
          · rw [if_pos h4] at hok; simp at hok
          · rw [if_neg h4] at hok ⊢
            dsimp only at hok ⊢
            cases hr : (execLoop env cfg.mmSToRpm (env.clock 0) fuel
                (w1 :: rest) 0 1 5).2.2.2 with
            | ok =>
              rw [hr] at hok
              dsimp only at hok ⊢
              have hseg := execLoop_ok_map_fst env cfg.mmSToRpm (env.clock 0)
                fuel (w1 :: rest) 0 1 5 hr
              by_cases h5 : env.axFail (execLoop env cfg.mmSToRpm (env.clock 0)
                  fuel (w1 :: rest) 0 1 5).2.2.1 = true
              · rw [if_pos h5] at hok; simp at hok
              · rw [if_neg h5] at hok ⊢
                by_cases h6 : env.axFail ((execLoop env cfg.mmSToRpm (env.clock 0)
                    fuel (w1 :: rest) 0 1 5).2.2.1 + 1) = true
                · rw [if_pos h6] at hok; simp at hok
                · rw [if_neg h6]
                  constructor
                  · simp [hseg, hk, hlastD]
                  · simp [hseg, hk, hlastD, List.filter_append,
                      loopCmds_filter_pos, isPosTargetCmd]
            | axisError => rw [hr] at hok; dsimp only at hok; simp at hok
            | fuelOut => rw [hr] at hok; dsimp only at hok; simp at hok
            | indexError => rw [hr] at hok; dsimp only at hok; simp at hok

/-- Claim C3, amended: There is no try/except/finally in
`executeWaypointsPosition`, so when an `AxisCommunicationError` occurs the
exception propagates to the caller unretried and nothing further runs — in
particular the best-effort safety action claimed by the spec does not happen:
an aborted run's command trace never contains a torque-target write (the
`setTorqueMode`/`setTorque(0)` pair of lines 242-244 is reached only on
success, where exactly one zero-torque target is issued). -/
theorem executor_comm_error_no_safety_torque (cfg : MotorCfg) (env : Env)
    (wps : List Waypoint) (fuel : Nat) :
    ((executeWaypointsPosition cfg env wps fuel).2 = .axisError →
      ((executeWaypointsPosition cfg env wps fuel).1.map Prod.fst).filter
        isTorqueTargetCmd = []) ∧
    ((executeWaypointsPosition cfg env wps fuel).2 = .ok →
      ((executeWaypointsPosition cfg env wps fuel).1.map Prod.fst).filter
        isTorqueTargetCmd = [Cmd.setTorque 0]) := by
  match wps with
  | [] => simp [executeWaypointsPosition]
  | [w] => simp [executeWaypointsPosition]
  | w0 :: w1 :: rest =>
    rw [executeWaypointsPosition]
    by_cases h0 : env.axFail 0 = true
    · rw [if_pos h0]
      exact ⟨fun _ => rfl, fun h => by simp at h⟩
    · rw [if_neg h0]
      by_cases h1 : env.axFail 1 = true
      · rw [if_pos h1]
        exact ⟨fun _ => rfl, fun h => by simp at h⟩
      · rw [if_neg h1]
        by_cases h2 : env.axFail 2 = true
        · rw [if_pos h2]
          exact ⟨fun _ => rfl, fun h => by simp at h⟩
        · rw [if_neg h2]
          by_cases h3 : env.axFail 3 = true
          · rw [if_pos h3]
            exact ⟨fun _ => rfl, fun h => by simp at h⟩
          · rw [if_neg h3]
            by_cases h4 : env.axFail 4 = true
            · rw [if_pos h4]
              exact ⟨fun _ => rfl, fun h => by simp at h⟩
            · rw [if_neg h4]
              dsimp only
              cases hr : (execLoop env cfg.mmSToRpm (env.clock 0) fuel
                  (w1 :: rest) 0 1 5).2.2.2 with
              | ok =>
                dsimp only
                by_cases h5 : env.axFail (execLoop env cfg.mmSToRpm (env.clock 0)
                    fuel (w1 :: rest) 0 1 5).2.2.1 = true
                · rw [if_pos h5]
                  refine ⟨fun _ => ?_, fun h => by simp at h⟩
                  simp [List.filter_append, execLoop_filter_torque,
                    isTorqueTargetCmd]
                · rw [if_neg h5]
                  by_cases h6 : env.axFail ((execLoop env cfg.mmSToRpm
                      (env.clock 0) fuel (w1 :: rest) 0 1 5).2.2.1 + 1) = true
                  · rw [if_pos h6]
                    refine ⟨fun _ => ?_, fun h => by simp at h⟩
                    simp [List.filter_append, execLoop_filter_torque,
                      isTorqueTargetCmd]
                  · rw [if_neg h6]
                    refine ⟨fun h => by simp at h, fun _ => ?_⟩
                    simp [List.filter_append, execLoop_filter_torque,
                      isTorqueTargetCmd]
              | axisError =>
                dsimp only
                refine ⟨fun _ => ?_, fun h => by simp at h⟩
                simp [List.filter_append, execLoop_filter_torque,
                  isTorqueTargetCmd]
              | fuelOut =>
                dsimp only
                exact ⟨fun h => by simp at h, fun h => by simp at h⟩
              | indexError =>
                dsimp only
                exact ⟨fun h => by simp at h, fun h => by simp at h⟩

/-- Claim C7: Velocity-limit scheduling never fires early: on a completed run,
the Executing phase issues exactly one `setVelocityLimit(|wp.v|*mm_s_to_rpm)`
per waypoint after the first, in order, and each is issued only once the most
recent `time.time()` measurement (`clock (tag − 1)`, where `tag` counts the
samples taken before the command went out) has reached `wp.t` seconds past
`t0` — under a monotone wall clock no velocity-limit change can occur at an
elapsed time earlier than its waypoint's scheduled time.  (`drop 6` discards
the Configuring commands, including the initial velocity-limit write.) -/
theorem executor_vel_limits_never_early (cfg : MotorCfg) (env : Env)
    (fuel : Nat) (w0 w1 : Waypoint) (rest : List Waypoint)
    (hmono : ∀ i j, i ≤ j → env.clock i ≤ env.clock j)
    (hok : (executeWaypointsPosition cfg env (w0 :: w1 :: rest) fuel).2 = .ok) :
    List.Forall₂ (fun (wp : Waypoint) (p : ℚ × Nat) =>
        p.1 = |wp.v| * cfg.mmSToRpm ∧
        wp.t ≤ env.clock (p.2 - 1) - env.clock 0)
      (w1 :: rest)
      (velLimPairs ((executeWaypointsPosition cfg env
        (w0 :: w1 :: rest) fuel).1.drop 6)) := by
  rw [executeWaypointsPosition] at hok ⊢
  by_cases h0 : env.axFail 0 = true
  · rw [if_pos h0] at hok; simp at hok
  · rw [if_neg h0] at hok ⊢
    by_cases h1 : env.axFail 1 = true
    · rw [if_pos h1] at hok; simp at hok
    · rw [if_neg h1] at hok ⊢
      by_cases h2 : env.axFail 2 = true
      · rw [if_pos h2] at hok; simp at hok
      · rw [if_neg h2] at hok ⊢
        by_cases h3 : env.axFail 3 = true
        · rw [if_pos h3] at hok; simp at hok
        · rw [if_neg h3] at hok ⊢
          by_cases h4 : env.axFail 4 = true
          · rw [if_pos h4] at hok; simp at hok
          · rw [if_neg h4] at hok ⊢
            dsimp only at hok ⊢
            cases hr : (execLoop env cfg.mmSToRpm (env.clock 0) fuel
                (w1 :: rest) 0 1 5).2.2.2 with
            | ok =>
              rw [hr] at hok
              dsimp only at hok ⊢
              have htm := execLoop_timing env cfg.mmSToRpm (env.clock 0) fuel
                hmono rfl (w1 :: rest) 0 1 5 (Or.inl rfl) hr
              by_cases h5 : env.axFail (execLoop env cfg.mmSToRpm (env.clock 0)
                  fuel (w1 :: rest) 0 1 5).2.2.1 = true
              · rw [if_pos h5] at hok; simp at hok
              · rw [if_neg h5] at hok ⊢
                by_cases h6 : env.axFail ((execLoop env cfg.mmSToRpm
                    (env.clock 0) fuel (w1 :: rest) 0 1 5).2.2.1 + 1) = true
                · rw [if_pos h6] at hok; simp at hok
                · rw [if_neg h6]
                  simpa [velLimPairs, List.filterMap_append] using htm
            | axisError => rw [hr] at hok; dsimp only at hok; simp at hok
            | fuelOut => rw [hr] at hok; dsimp only at hok; simp at hok
            | indexError => rw [hr] at hok; dsimp only at hok; simp at hok

/-- Claim C3, counterexample: A concrete run whose sixth axis command (the first
in-loop `setVelocityLimit`) raises: the error propagates as the run's result,
yet the trace contains no torque-target write and no switch to torque mode —
the claimed best-effort safety action does not happen. -/
theorem executor_error_claim_counterexample :
    (executeWaypointsPosition cfgW envFailW [wpA, wpB] 1).2 = .axisError ∧
    ((executeWaypointsPosition cfgW envFailW [wpA, wpB] 1).1.map Prod.fst).filter
        isTorqueTargetCmd = [] ∧
    Cmd.setTorqueMode ∉
      ((executeWaypointsPosition cfgW envFailW [wpA, wpB] 1).1.map Prod.fst) := by
  refine ⟨?_, ?_, ?_⟩ <;>
      norm_num [executeWaypointsPosition, execLoop, busyWait, cfgW, envFailW,
        clockW, wpA, wpB, MotorCfg.mmSToRpm, isTorqueTargetCmd] <;>
    simp

/-- Witness for `executor_single_position_target`: two waypoints, fault-free
run. -/
theorem executor_single_position_target_witness :
    ((executeWaypointsPosition cfgW envOkW [wpA, wpB] 1).1.map Prod.fst).take 6
      = [Cmd.setPositionMode, Cmd.getPositionMm, Cmd.resetInputBuffer,
         Cmd.setAccelLimit 2147483647,
         Cmd.setVelocityLimit (|wpB.v| * cfgW.mmSToRpm),
         Cmd.setPositionMm wpB.x] ∧
    ((executeWaypointsPosition cfgW envOkW [wpA, wpB] 1).1.map Prod.fst).filter
        isPosTargetCmd = [Cmd.setPositionMm wpB.x] :=
  executor_single_position_target cfgW envOkW 1 wpA wpB [] wpB rfl
    (by norm_num [List.pairwise_cons, wpA, wpB])
    (by norm_num [cfgW])
    (by norm_num [executeWaypointsPosition, execLoop, busyWait, cfgW, envOkW,
      clockW, wpA, wpB, MotorCfg.mmSToRpm])

/-- Witness for `executor_comm_error_no_safety_torque`: the aborted run of
`envFailW` has no torque write; the completed run of `envOkW` ends with
exactly the one zero-torque write. -/
theorem executor_comm_error_no_safety_torque_witness :
    ((executeWaypointsPosition cfgW envFailW [wpA, wpB] 1).1.map Prod.fst).filter
        isTorqueTargetCmd = [] ∧
    ((executeWaypointsPosition cfgW envOkW [wpA, wpB] 1).1.map Prod.fst).filter
        isTorqueTargetCmd = [Cmd.setTorque 0] :=
  ⟨(executor_comm_error_no_safety_torque cfgW envFailW [wpA, wpB] 1).1
      (by norm_num [executeWaypointsPosition, execLoop, busyWait, cfgW,
        envFailW, clockW, wpA, wpB, MotorCfg.mmSToRpm]),
   (executor_comm_error_no_safety_torque cfgW envOkW [wpA, wpB] 1).2
      (by norm_num [executeWaypointsPosition, execLoop, busyWait, cfgW,
        envOkW, clockW, wpA, wpB, MotorCfg.mmSToRpm])⟩

/-- Witness for `executor_vel_limits_never_early`: the fault-free run under
the monotone clock `clockW`. -/
theorem executor_vel_limits_never_early_witness :
    List.Forall₂ (fun (wp : Waypoint) (p : ℚ × Nat) =>
        p.1 = |wp.v| * cfgW.mmSToRpm ∧
        wp.t ≤ envOkW.clock (p.2 - 1) - envOkW.clock 0)
      [wpB]
      (velLimPairs ((executeWaypointsPosition cfgW envOkW
        [wpA, wpB] 1).1.drop 6)) :=
  executor_vel_limits_never_early cfgW envOkW 1 wpA wpB []
    (by
      intro i j hij
      simp only [envOkW, clockW]
      by_cases hi : i = 0
      · by_cases hj : j = 0 <;> simp [hi, hj]
      · have hj : ¬ j = 0 := by omega
        simp [hi, hj])
    (by norm_num [executeWaypointsPosition, execLoop, busyWait, cfgW, envOkW,
      clockW, wpA, wpB, MotorCfg.mmSToRpm])

end Gantry
